import Mathlib

/-
Verification of the CaboFitPass repository's specification.

The repository configures a sequential multi-agent pipeline on top of an
external agent-orchestration library; the orchestrator itself (pipeline
build-time validation, sequential task execution, the agent iteration
loop, tool-result caching) is not part of the repository's sources, only
its configuration is.  Those parts are therefore modelled from the spec
(sections 3, 4.2-4.5, 7, 8).  The code that does live in the sources -
the custom tool functions and the save_results persistence routine of
cabo_market_research_crew_improved.py - is embedded directly.
-/

/-! ## Sequential multi-agent pipeline, modelled from the spec -/

/-- Modelled from the spec: a Task is a unit of work bound to one agent,
with a description, and dependencies given as references to upstream
tasks (here: indices into the pipeline's task sequence).  The concrete
Task/agent classes live in the external orchestration library; the
sources only instantiate them. -/
structure SpecTask where
  description : String
  agentRole : String
  dependencies : List Nat
deriving DecidableEq

/-- Modelled from the spec: pipeline-level errors.  PipelineConfigError is
raised at build time; PipelineExecutionError wraps a failing task's index
and cause together with the results completed before the failure. -/
inductive PipelineError where
  | PipelineConfigError (msg : String)
  | PipelineExecutionError (taskIndex : Nat) (cause : String)
      (completedResults : List String)
deriving DecidableEq

/-- Modelled from the spec: a Pipeline is an ordered sequence of tasks. -/
structure Pipeline where
  tasks : List SpecTask
deriving DecidableEq

/-- An agent execution function: role, task description, upstream context
(the dependency results, in declaration order) to either an output string
or an error cause. -/
abbrev AgentExec := String → String → List String → Except String String

/-- Modelled from the spec: the ExecutionResult packages the per-task
results in sequence order, the final result, and task-count metadata. -/
structure ExecutionResult where
  perTask : List String
  finalResult : String
  taskCount : Nat
deriving DecidableEq

/-- The topological ordering contract of the spec: every task's
dependencies reference tasks that appear strictly earlier in the task
sequence. -/
def topoOrdered (tasks : List SpecTask) : Prop :=
  ∀ i t, tasks.get? i = some t → ∀ d ∈ t.dependencies, d < i

/-- Modelled from the spec: build-time dependency check, scanning tasks in
order and requiring every dependency index to be strictly below the
task's own index. -/
def depsValidFrom : Nat → List SpecTask → Bool
  | _, [] => true
  | i, t :: rest =>
    t.dependencies.all (fun d => decide (d < i)) && depsValidFrom (i + 1) rest

/-- Build-time dependency validation over the whole task sequence. -/
def depsValid (tasks : List SpecTask) : Bool :=
  depsValidFrom 0 tasks

/-- Modelled from the spec: building a Pipeline validates at build time
that the task sequence is a topological order consistent with declared
dependencies, rejecting with PipelineConfigError otherwise; no task
executes during build. -/
def buildPipeline (tasks : List SpecTask) : Except PipelineError Pipeline :=
  if depsValid tasks then .ok ⟨tasks⟩
  else .error (.PipelineConfigError "task dependencies must reference earlier tasks")

/-- Modelled from the spec: sequential task execution.  Tasks run strictly
in sequence order; a task's upstream context is the list of its declared
dependencies' results in declaration order; a task failure (an agent
error, or an empty result violating the non-empty-result contract of the
spec) halts the run with a PipelineExecutionError carrying the failing
task's index, the cause, and the results completed so far. -/
def runTasks (exec : AgentExec) : List SpecTask → Nat → List String →
    Except PipelineError (List String)
  | [], _, acc => .ok acc
  | t :: rest, idx, acc =>
    match exec t.agentRole t.description
        (t.dependencies.map (fun d => acc.getD d "")) with
    | .error e => .error (.PipelineExecutionError idx e acc)
    | .ok out =>
      if out = "" then .error (.PipelineExecutionError idx "empty task result" acc)
      else runTasks exec rest (idx + 1) (acc ++ [out])

/-- Modelled from the spec: the Runner drives the pipeline end-to-end and
packages an ExecutionResult whose final result is the last task's
result. -/
def runPipeline (exec : AgentExec) (P : Pipeline) : Except PipelineError ExecutionResult :=
  match runTasks exec P.tasks 0 [] with
  | .error e => .error e
  | .ok rs => .ok ⟨rs, (rs.getLast?).getD "", P.tasks.length⟩

/-! ### The three-task chain scenario -/

/-- Task A of the spec's three-task chain scenario, description x. -/
def taskA : SpecTask := ⟨"x", "roleA", []⟩

/-- Task B, depending on task A (index 0). -/
def taskB : SpecTask := ⟨"write", "roleB", [0]⟩

/-- Task C, depending on task B (index 1). -/
def taskC : SpecTask := ⟨"edit", "roleC", [1]⟩

/-- The three-task pipeline A, B, C. -/
def crewABC : Pipeline := ⟨[taskA, taskB, taskC]⟩

/-- The spec scenario's pure agent stub: returns role: processed(input),
where the input is the task description for a task without dependencies
and the joined upstream context otherwise. -/
def stubExec : AgentExec := fun role desc ctx =>
  .ok (role ++ ": processed(" ++
    (if ctx.isEmpty then desc else String.intercalate "\n\n" ctx) ++ ")")

/-- An agent stub that fails with the given cause on roleB and behaves
like stubExec on every other role. -/
def failingExec (e : String) : AgentExec := fun role desc ctx =>
  if role = "roleB" then .error e
  else .ok (role ++ ": processed(" ++
    (if ctx.isEmpty then desc else String.intercalate "\n\n" ctx) ++ ")")

/-! ### Build-time validation lemmas -/

theorem depsValidFrom_iff (ts : List SpecTask) :
    ∀ i, depsValidFrom i ts = true ↔
      ∀ j t, ts.get? j = some t → ∀ d ∈ t.dependencies, d < i + j := by
  induction ts with
  | nil => intro i; simp [depsValidFrom]
  | cons t rest ih =>
    intro i
    simp only [depsValidFrom, Bool.and_eq_true, List.all_eq_true, decide_eq_true_iff]
    constructor
    · rintro ⟨h1, h2⟩ j u hj d hd
      cases j with
      | zero =>
        simp only [List.get?_cons_zero, Option.some.injEq] at hj
        subst hj
        simpa using h1 d hd
      | succ j =>
        simp only [List.get?_cons_succ] at hj
        have := (ih (i + 1)).mp h2 j u hj d hd
        omega
    · intro h
      refine ⟨fun d hd => ?_, (ih (i + 1)).mpr ?_⟩
      · have := h 0 t rfl d hd; omega
      · intro j u hj d hd
        have := h (j + 1) u (by simpa using hj) d hd
        omega

theorem depsValid_iff (ts : List SpecTask) :
    depsValid ts = true ↔ topoOrdered ts := by
  unfold depsValid topoOrdered
  rw [depsValidFrom_iff]
  constructor
  · intro h i t hi d hd; simpa using h i t hi d hd
  · intro h j t hj d hd; simpa using h j t hj d hd

/-! ### Sequential execution lemmas -/

theorem runTasks_ok (exec : AgentExec) :
    ∀ (ts : List SpecTask) (idx : Nat) (acc rs : List String),
      runTasks exec ts idx acc = .ok rs →
      rs.length = acc.length + ts.length ∧ ∀ s ∈ rs, s ∈ acc ∨ s ≠ "" := by
  intro ts
  induction ts with
  | nil =>
    intro idx acc rs h
    simp only [runTasks, Except.ok.injEq] at h
    subst h
    exact ⟨by simp, fun s hs => Or.inl hs⟩
  | cons t rest ih =>
    intro idx acc rs h
    simp only [runTasks] at h
    cases hx : exec t.agentRole t.description
        (t.dependencies.map (fun d => acc.getD d "")) with
    | error e => rw [hx] at h; exact absurd h (by simp)
    | ok out =>
      rw [hx] at h
      dsimp only at h
      by_cases hout : out = ""
      · rw [if_pos hout] at h; exact absurd h (by simp)
      · rw [if_neg hout] at h
        obtain ⟨hlen, hmem⟩ := ih (idx + 1) (acc ++ [out]) rs h
        refine ⟨by simp at hlen ⊢; omega, fun s hs => ?_⟩
        rcases hmem s hs with hmem' | hne
        · rcases List.mem_append.mp hmem' with h1 | h2
          · exact Or.inl h1
          · right; simp at h2; subst h2; exact hout
        · exact Or.inr hne

theorem runTasks_err (exec : AgentExec) :
    ∀ (ts : List SpecTask) (idx : Nat) (acc rs : List String) (i : Nat) (e : String),
      runTasks exec ts idx acc = .error (.PipelineExecutionError i e rs) →
      idx ≤ i ∧ i < idx + ts.length ∧ rs.length = i - idx + acc.length := by
  intro ts
  induction ts with
  | nil => intro idx acc rs i e h; exact absurd h (by simp [runTasks])
  | cons t rest ih =>
    intro idx acc rs i e h
    simp only [runTasks] at h
    cases hx : exec t.agentRole t.description
        (t.dependencies.map (fun d => acc.getD d "")) with
    | error cause =>
      rw [hx] at h
      simp only [Except.error.injEq, PipelineError.PipelineExecutionError.injEq] at h
      obtain ⟨hi, _, hrs⟩ := h
      subst hi; subst hrs
      exact ⟨Nat.le_refl _, by simp only [List.length_cons]; omega, by omega⟩
    | ok out =>
      rw [hx] at h
      dsimp only at h
      by_cases hout : out = ""
      · rw [if_pos hout] at h
        simp only [Except.error.injEq, PipelineError.PipelineExecutionError.injEq] at h
        obtain ⟨hi, _, hrs⟩ := h
        subst hi; subst hrs
        exact ⟨Nat.le_refl _, by simp only [List.length_cons]; omega, by omega⟩
      · rw [if_neg hout] at h
        obtain ⟨h1, h2, h3⟩ := ih (idx + 1) (acc ++ [out]) rs i e h
        simp only [List.length_append, List.length_singleton] at h3
        exact ⟨by omega, by simp only [List.length_cons]; omega, by omega⟩

/-! ### Expected results of the three-task chain -/

/-- Expected result of task A in the stub scenario. -/
def resA : String := "roleA: processed(x)"

/-- Expected result of task B in the stub scenario. -/
def resB : String := "roleB: processed(roleA: processed(x))"

/-- Expected result of task C in the stub scenario. -/
def resC : String := "roleC: processed(roleB: processed(roleA: processed(x)))"

/-- A single task whose dependency list references itself (index 0),
violating the topological ordering contract. -/
def badTask : SpecTask := ⟨"bad", "roleX", [0]⟩

/-! ## Claim theorems for the pipeline model -/

/-- C1: a Pipeline builds successfully exactly when every task's declared
dependencies appear strictly before it in the task sequence, and a
violating task sequence is rejected with PipelineConfigError at build
time, before any task executes. -/
theorem claim1_build_validates_topology (ts : List SpecTask) :
    ((∃ P, buildPipeline ts = .ok P) ↔ topoOrdered ts) ∧
    (¬ topoOrdered ts →
      ∃ msg, buildPipeline ts = .error (.PipelineConfigError msg)) := by
  have hiff := depsValid_iff ts
  constructor
  · constructor
    · rintro ⟨P, hP⟩
      by_cases hv : depsValid ts = true
      · exact hiff.mp hv
      · rw [buildPipeline, if_neg hv] at hP
        exact absurd hP (by simp)
    · intro h
      exact ⟨⟨ts⟩, by rw [buildPipeline, if_pos (hiff.mpr h)]⟩
  · intro h
    have hv : ¬ depsValid ts = true := fun hv => h (hiff.mp hv)
    exact ⟨"task dependencies must reference earlier tasks",
      by rw [buildPipeline, if_neg hv]⟩

/-- Witness for C1: the one-task pipeline whose task depends on itself is
rejected with PipelineConfigError. -/
theorem claim1_build_validates_topology_witness :
    ∃ msg, buildPipeline [badTask] = .error (.PipelineConfigError msg) :=
  (claim1_build_validates_topology [badTask]).2
    (fun h => absurd (h 0 badTask rfl 0 (by simp [badTask])) (by omega))

/-- C2: in the three-task chain A, B, C with pure stub agents and A's
description x, the pipeline builds, and sequential execution threads each
task's result into the next dependent task's input in declaration order,
producing the three expected results and the final result of task C. -/
theorem claim2_three_task_chain :
    buildPipeline [taskA, taskB, taskC] = .ok crewABC ∧
    runPipeline stubExec crewABC = .ok ⟨[resA, resB, resC], resC, 3⟩ := by
  constructor
  · rfl
  · rfl

/-- C3: every successful pipeline run yields one result per task, every
task's result is a non-empty string, and the ExecutionResult's final
result equals the result of the last task in sequence order. -/
theorem claim3_final_result_and_nonempty (exec : AgentExec) (P : Pipeline)
    (r : ExecutionResult) (h : runPipeline exec P = .ok r) :
    r.perTask.length = P.tasks.length ∧ (∀ s ∈ r.perTask, s ≠ "") ∧
    (P.tasks ≠ [] →
      ∃ hne : r.perTask ≠ [], r.finalResult = r.perTask.getLast hne) := by
  rw [runPipeline] at h
  cases hx : runTasks exec P.tasks 0 [] with
  | error e => rw [hx] at h; exact absurd h (by simp)
  | ok rs =>
    rw [hx] at h
    simp only [Except.ok.injEq] at h
    subst h
    obtain ⟨hlen, hmem⟩ := runTasks_ok exec P.tasks 0 [] rs hx
    simp only [List.length_nil, Nat.zero_add] at hlen
    refine ⟨hlen, fun s hs => ?_, fun hts => ?_⟩
    · rcases hmem s hs with h1 | h2
      · exact absurd h1 (List.not_mem_nil s)
      · exact h2
    · have hne : rs ≠ [] := by
        intro hrs; subst hrs
        exact hts (List.eq_nil_of_length_eq_zero hlen.symm)
      exact ⟨hne, by simp [List.getLast?_eq_getLast rs hne]⟩

/-- Witness for C3: the successful stub run of the three-task chain. -/
theorem claim3_final_result_and_nonempty_witness :
    ([resA, resB, resC] : List String).length = crewABC.tasks.length ∧
    (∀ s ∈ ([resA, resB, resC] : List String), s ≠ "") ∧
    (crewABC.tasks ≠ [] →
      ∃ hne : ([resA, resB, resC] : List String) ≠ [],
        resC = ([resA, resB, resC] : List String).getLast hne) :=
  claim3_final_result_and_nonempty stubExec crewABC ⟨[resA, resB, resC], resC, 3⟩ rfl

/-- C4: a failing task halts the pipeline with an error identifying the
failing task's index and cause and carrying exactly the results completed
before it; concretely, when task B of the three-task chain fails with
cause e, the surfaced error names task index 1, cause e, and retains
task A's result while omitting any result for task C. -/
theorem claim4_failure_halts_keeps_completed (e : String) (exec : AgentExec)
    (P : Pipeline) (i : Nat) (cause : String) (done : List String) :
    runPipeline (failingExec e) crewABC =
      .error (.PipelineExecutionError 1 e [resA]) ∧
    (runPipeline exec P = .error (.PipelineExecutionError i cause done) →
      done.length = i ∧ i < P.tasks.length) := by
  constructor
  · rfl
  · intro h
    rw [runPipeline] at h
    cases hx : runTasks exec P.tasks 0 [] with
    | error pe =>
      rw [hx] at h
      simp only [Except.error.injEq] at h
      subst h
      obtain ⟨h1, h2, h3⟩ := runTasks_err exec P.tasks 0 [] done i cause hx
      simp only [List.length_nil] at h3
      exact ⟨by omega, by omega⟩
    | ok rs => rw [hx] at h; exact absurd h (by simp)

/-- Witness for C4: the concrete failing run of the three-task chain. -/
theorem claim4_failure_halts_keeps_completed_witness :
    runPipeline (failingExec "tool timeout") crewABC =
      .error (.PipelineExecutionError 1 "tool timeout" [resA]) ∧
    ([resA] : List String).length = 1 ∧ 1 < crewABC.tasks.length :=
  ⟨(claim4_failure_halts_keeps_completed "tool timeout" stubExec crewABC 1
      "tool timeout" [resA]).1,
   (claim4_failure_halts_keeps_completed "tool timeout" (failingExec "tool timeout")
      crewABC 1 "tool timeout" [resA]).2 rfl⟩

/-! ## Agent iteration loop, modelled from the spec -/

/-- Modelled from the spec: one step of the agent's reasoning, which
either finalizes an answer or chooses a tool to invoke. -/
inductive AgentStep where
  | finalize (answer : String)
  | useTool (tool : String) (input : String)

/-- Modelled from the spec: agent-level errors. -/
inductive AgentError where
  | AgentExecutionError (msg : String)
deriving DecidableEq

/-- Modelled from the spec: the Agent alternates between a reasoning step
that decides whether to invoke a tool or finalize, and invoking the
chosen tool and incorporating its output into the working context, up to
a max_iterations budget of rounds; exhausting the budget without a final
answer fails with AgentExecutionError. -/
def agentExecute (reason : String → AgentStep) (toolRun : String → String → String) :
    Nat → String → Except AgentError String
  | 0, _ => .error (.AgentExecutionError "max_iterations exhausted without final answer")
  | n + 1, ctx =>
    match reason ctx with
    | .finalize a => .ok a
    | .useTool t i => agentExecute reason toolRun n (ctx ++ toolRun t i)

/-- The working context after k tool rounds, starting from ctx. -/
def ctxAfter (reason : String → AgentStep) (toolRun : String → String → String) :
    Nat → String → String
  | 0, ctx => ctx
  | k + 1, ctx =>
    match reason ctx with
    | .finalize _ => ctx
    | .useTool t i => ctxAfter reason toolRun k (ctx ++ toolRun t i)

/-- C5: an Agent whose reasoning keeps requesting tool rounds throughout
its max_iterations budget fails with AgentExecutionError instead of
hanging or succeeding; in particular, with max_iterations zero, an agent
whose task requires one tool round-trip fails immediately with
AgentExecutionError. -/
theorem claim5_iteration_budget_exhaustion (reason : String → AgentStep)
    (toolRun : String → String → String) (n : Nat) (ctx : String) :
    ((∀ k, k < n → ∃ t i, reason (ctxAfter reason toolRun k ctx) = .useTool t i) →
      agentExecute reason toolRun n ctx =
        .error (.AgentExecutionError "max_iterations exhausted without final answer")) ∧
    (∀ t i, reason ctx = .useTool t i →
      agentExecute reason toolRun 0 ctx =
        .error (.AgentExecutionError "max_iterations exhausted without final answer")) := by
  constructor
  · induction n generalizing ctx with
    | zero => intro _; rfl
    | succ n ih =>
      intro h
      obtain ⟨t, i, ht⟩ := h 0 (Nat.succ_pos n)
      rw [agentExecute, show ctxAfter reason toolRun 0 ctx = ctx from rfl] at *
      rw [ht]
      refine ih (ctx ++ toolRun t i) (fun k hk => ?_)
      have := h (k + 1) (by omega)
      rwa [show ctxAfter reason toolRun (k + 1) ctx =
        ctxAfter reason toolRun k (ctx ++ toolRun t i) from by
          rw [ctxAfter, ht]] at this
  · intro t i _; rfl

/-- Witness for C5: a two-round budget exhausted by an agent that always
asks for another search, and the zero-budget agent that needs one tool
round-trip. -/
theorem claim5_iteration_budget_exhaustion_witness :
    agentExecute (fun _ => .useTool "search" "cabo") (fun _ _ => "results") 2 "task" =
      .error (.AgentExecutionError "max_iterations exhausted without final answer") ∧
    agentExecute (fun _ => .useTool "search" "cabo") (fun _ _ => "results") 0 "task" =
      .error (.AgentExecutionError "max_iterations exhausted without final answer") :=
  ⟨(claim5_iteration_budget_exhaustion (fun _ => .useTool "search" "cabo")
      (fun _ _ => "results") 2 "task").1 (fun _ _ => ⟨"search", "cabo", rfl⟩),
   (claim5_iteration_budget_exhaustion (fun _ => .useTool "search" "cabo")
      (fun _ _ => "results") 0 "task").2 "search" "cabo" rfl⟩

/-! ## Tool-result cache, modelled from the spec -/

/-- Modelled from the spec: the Runner's cache state, memoizing tool
results keyed by (tool name, input) together with a log of the underlying
side-effecting invocations actually performed. -/
structure CacheState where
  cache : List ((String × String) × String)
  callLog : List (String × String)

/-- Lookup of a (tool name, input) key in the memoization table. -/
def lookupCache (key : String × String) :
    List ((String × String) × String) → Option String
  | [] => none
  | (k, v) :: rest => if key = k then some v else lookupCache key rest

/-- Modelled from the spec: cached tool invocation; a hit returns the
memoized output without re-invoking the tool, a miss invokes the
underlying tool, logs the call, and stores the result. -/
def invokeCached (tool : String → String → String) (name input : String)
    (s : CacheState) : String × CacheState :=
  match lookupCache (name, input) s.cache with
  | some v => (v, s)
  | none =>
    let out := tool name input
    (out, ⟨((name, input), out) :: s.cache, (name, input) :: s.callLog⟩)

/-- C6: with caching enabled, invoking the same tool on the same input
twice yields identical outputs, and the underlying side-effecting call is
performed at most once more for that (tool name, input) key than before
the two invocations. -/
theorem claim6_cache_idempotent (tool : String → String → String)
    (name input : String) (s : CacheState) :
    (invokeCached tool name input s).1 =
      (invokeCached tool name input (invokeCached tool name input s).2).1 ∧
    (invokeCached tool name input (invokeCached tool name input s).2).2.callLog.count
        (name, input) ≤ s.callLog.count (name, input) + 1 := by
  cases hx : lookupCache (name, input) s.cache with
  | some v =>
    constructor
    · simp [invokeCached, hx]
    · simp only [invokeCached, hx]
      omega
  | none =>
    refine ⟨?_, ?_⟩ <;>
      simp [invokeCached, hx, lookupCache, List.count_cons]

/-! ## Embedded source code: string replacement (Python str.replace) -/

/-- Whether pat is a leading segment of l, as Python startswith. -/
def startsWith : List Char → List Char → Bool
  | [], _ => true
  | _ :: _, [] => false
  | p :: ps, c :: cs => p == c && startsWith ps cs

/-- Whether pat occurs as a contiguous segment of l. -/
def containsPat (pat : List Char) : List Char → Bool
  | [] => pat.isEmpty
  | c :: cs => startsWith pat (c :: cs) || containsPat pat cs

/-- Python str.replace(old, new) for a non-empty old: replaces every
non-overlapping occurrence of pat by rep, scanning left to right. -/
def pyReplace (pat rep : List Char) : List Char → List Char
  | [] => []
  | c :: cs =>
    if pat ≠ [] ∧ startsWith pat (c :: cs) = true then
      rep ++ pyReplace pat rep (List.drop (pat.length - 1) cs)
    else
      c :: pyReplace pat rep cs
termination_by l => l.length
decreasing_by
  · simp only [List.length_drop, List.length_cons]; omega
  · simp only [List.length_cons]; omega

theorem startsWith_length_le (pat : List Char) :
    ∀ l, startsWith pat l = true → pat.length ≤ l.length := by
  induction pat with
  | nil => intro l _; simp
  | cons p ps ih =>
    intro l h
    cases l with
    | nil => exact absurd h (by simp [startsWith])
    | cons c cs =>
      simp only [startsWith, Bool.and_eq_true] at h
      simpa using ih cs h.2

theorem startsWith_self : ∀ l : List Char, startsWith l l = true := by
  intro l
  induction l with
  | nil => rfl
  | cons c cs ih => simp [startsWith, ih]

theorem containsPat_of_tail (pat : List Char) (c : Char) (cs : List Char)
    (h : containsPat pat cs = true) : containsPat pat (c :: cs) = true := by
  simp [containsPat, h]

theorem containsPat_at_end (pat : List Char) :
    ∀ s : List Char, containsPat pat (s ++ pat) = true := by
  intro s
  induction s with
  | nil =>
    cases pat with
    | nil => rfl
    | cons p ps => simp [containsPat, startsWith_self]
  | cons x s ih => simpa [containsPat] using Or.inr ih

theorem pyReplace_of_not_occurs (pat rep : List Char) :
    ∀ l, containsPat pat l = false → pyReplace pat rep l = l := by
  intro l
  induction l with
  | nil => intro _; simp [pyReplace]
  | cons c cs ih =>
    intro h
    simp only [containsPat, Bool.or_eq_false_iff] at h
    have hneg : ¬(pat ≠ [] ∧ startsWith pat (c :: cs) = true) := fun hc => by
      rw [h.1] at hc; exact absurd hc.2 (by simp)
    simp only [pyReplace, if_neg hneg]
    rw [ih h.2]

theorem startsWith_eq_append (pat : List Char) :
    ∀ l, startsWith pat l = true → l = pat ++ List.drop pat.length l := by
  induction pat with
  | nil => intro l _; simp
  | cons p ps ih =>
    intro l h
    cases l with
    | nil => exact absurd h (by simp [startsWith])
    | cons c cs =>
      simp only [startsWith, Bool.and_eq_true, beq_iff_eq] at h
      obtain ⟨hpc, hps⟩ := h
      subst hpc
      simpa using ih cs hps

theorem pyReplace_length_le (pat rep : List Char) (hr : rep.length ≤ pat.length) :
    ∀ l, (pyReplace pat rep l).length ≤ l.length := by
  have H : ∀ n (l : List Char), l.length ≤ n →
      (pyReplace pat rep l).length ≤ l.length := by
    intro n
    induction n with
    | zero =>
      intro l hl
      have : l = [] := List.eq_nil_of_length_eq_zero (by omega)
      subst this; simp [pyReplace]
    | succ n ihn =>
      intro l hl
      cases l with
      | nil => simp [pyReplace]
      | cons c cs =>
        by_cases hc : pat ≠ [] ∧ startsWith pat (c :: cs) = true
        · simp only [pyReplace, if_pos hc, List.length_append]
          have hpat : pat.length ≤ cs.length + 1 := by
            simpa using startsWith_length_le pat (c :: cs) hc.2
          have hcs : cs.length ≤ n := by
            simp only [List.length_cons] at hl; omega
          have hrec := ihn (List.drop (pat.length - 1) cs)
            (by simp only [List.length_drop]; omega)
          simp only [List.length_drop] at hrec
          simp only [List.length_cons]
          have hp1 : 1 ≤ pat.length := by
            cases hp : pat with
            | nil => exact absurd hp hc.1
            | cons _ _ => simp [hp]
          omega
        · simp only [pyReplace, if_neg hc, List.length_cons]
          have := ihn cs (by simp at hl; omega)
          omega
  exact fun l => H l.length l (Nat.le_refl _)

theorem pyReplace_length_lt (pat rep : List Char) (hr : rep.length < pat.length) :
    ∀ l, containsPat pat l = true → (pyReplace pat rep l).length < l.length := by
  have hp1 : pat ≠ [] := by
    intro h; subst h; simp at hr
  have H : ∀ n (l : List Char), l.length ≤ n → containsPat pat l = true →
      (pyReplace pat rep l).length < l.length := by
    intro n
    induction n with
    | zero =>
      intro l hl hcont
      have : l = [] := List.eq_nil_of_length_eq_zero (by omega)
      subst this
      simp only [containsPat, List.isEmpty_iff] at hcont
      exact absurd hcont hp1
    | succ n ihn =>
      intro l hl hcont
      cases l with
      | nil =>
        simp only [containsPat, List.isEmpty_iff] at hcont
        exact absurd hcont hp1
      | cons c cs =>
        by_cases hc : startsWith pat (c :: cs) = true
        · simp only [pyReplace, if_pos (And.intro hp1 hc), List.length_append]
          have hpat : pat.length ≤ cs.length + 1 := by
            simpa using startsWith_length_le pat (c :: cs) hc
          have hrec := pyReplace_length_le pat rep (by omega)
            (List.drop (pat.length - 1) cs)
          simp only [List.length_drop] at hrec
          simp only [List.length_cons]
          have hp2 : 1 ≤ pat.length := by
            cases hp : pat with
            | nil => exact absurd hp hp1
            | cons _ _ => simp [hp]
          omega
        · have hneg : ¬(pat ≠ [] ∧ startsWith pat (c :: cs) = true) :=
            fun hx => hc hx.2
          simp only [pyReplace, if_neg hneg, List.length_cons]
          simp only [containsPat, Bool.or_eq_true] at hcont
          rcases hcont with h1 | h2
          · exact absurd h1 hc
          · have := ihn cs (by simp at hl; omega) h2
            omega
  exact fun l => H l.length l (Nat.le_refl _)

theorem startsWith_iff (pat : List Char) :
    ∀ l, startsWith pat l = true ↔ ∃ t, l = pat ++ t := by
  induction pat with
  | nil => intro l; simp [startsWith]
  | cons p ps ih =>
    intro l
    cases l with
    | nil =>
      simp only [startsWith]
      constructor
      · intro h; exact absurd h (by simp)
      · rintro ⟨t, ht⟩; exact absurd ht (by simp)
    | cons c cs =>
      simp only [startsWith, Bool.and_eq_true, beq_iff_eq, ih cs]
      constructor
      · rintro ⟨rfl, t, rfl⟩; exact ⟨t, rfl⟩
      · rintro ⟨t, ht⟩
        simp only [List.cons_append, List.cons.injEq] at ht
        exact ⟨ht.1.symm, t, ht.2⟩

theorem containsPat_iff (pat : List Char) :
    ∀ l, containsPat pat l = true ↔ ∃ s t, l = s ++ pat ++ t := by
  intro l
  induction l with
  | nil =>
    simp only [containsPat, List.isEmpty_iff]
    constructor
    · intro h; exact ⟨[], [], by simp [h]⟩
    · rintro ⟨s, t, ht⟩
      rcases List.append_eq_nil.mp (List.append_eq_nil.mp ht.symm).1 with ⟨_, h2⟩
      exact h2
  | cons c cs ih =>
    simp only [containsPat, Bool.or_eq_true, startsWith_iff, ih]
    constructor
    · rintro (⟨t, ht⟩ | ⟨s, t, ht⟩)
      · exact ⟨[], t, by simpa using ht⟩
      · exact ⟨c :: s, t, by simp [ht]⟩
    · rintro ⟨s, t, ht⟩
      cases s with
      | nil => exact Or.inl ⟨t, by simpa using ht⟩
      | cons x s =>
        simp only [List.cons_append, List.cons.injEq] at ht
        exact Or.inr ⟨s, t, ht.2⟩

/-! ## Embedded source code: save_results
(cabo_market_research_crew_improved.py, lines 442-469) -/

/-- The JSON document save_results builds: timestamp (isoformat of the
second now() call), fixed research_type, str(result), and metadata with
the crew's agent and task counts. -/
structure SaveOutput where
  timestamp : String
  research_type : String
  result : String
  crew_size : Nat
  tasks_completed : Nat
deriving DecidableEq

/-- Content written to a file: either the JSON document or the
human-readable text report. -/
inductive FileContent where
  | jsonDoc (doc : SaveOutput)
  | textDoc (text : String)
deriving DecidableEq

/-- The cabo_research_crew is configured with five agents. -/
def caboCrewAgentCount : Nat := 5

/-- The cabo_research_crew is configured with five tasks. -/
def caboCrewTaskCount : Nat := 5

/-- The '=' * 80 banner line of the text report. -/
def eqBanner : String := String.mk (List.replicate 80 '=')

/-- The pattern dot json used by the filename replacement. -/
def jsonPat : List Char := ".json".data

/-- The replacement dot txt. -/
def txtPat : List Char := ".txt".data

/-- Embedding of save_results: result is the str() of the crew output,
filename? the optional explicit filename (None by default), nowStamp the
strftime timestamp used in the default filename, nowIso the isoformat
timestamp stored in the output.  Returns the ordered list of file writes
(JSON first, then the text report, as in the source) and the returned
pair (filename, txt_filename), where txt_filename is
filename.replace(".json", ".txt"). -/
def save_results (result : String) (filename? : Option (List Char))
    (nowStamp nowIso : String) :
    List (List Char × FileContent) × (List Char × List Char) :=
  let filename : List Char :=
    match filename? with
    | none => "cabo_market_research_".data ++ nowStamp.data ++ ".json".data
    | some f => f
  let output : SaveOutput :=
    { timestamp := nowIso
      research_type := "Cabo Tourism Market Analysis"
      result := result
      crew_size := caboCrewAgentCount
      tasks_completed := caboCrewTaskCount }
  let txtFilename := pyReplace jsonPat txtPat filename
  let textBody :=
    "Cabo Tourism Market Research Report\n" ++ ("Generated: " ++ nowIso ++ "\n") ++
      (eqBanner ++ "\n\n") ++ result
  ([(filename, FileContent.jsonDoc output), (txtFilename, FileContent.textDoc textBody)],
   (filename, txtFilename))

/-- C7: with the source's default filename (None), save_results writes a
JSON file whose result field equals str(result) and whose timestamp field
is present, writes a text file containing the timestamp and str(result),
and returns the pair of both file locations. -/
theorem claim7_save_results_contract (r nowStamp nowIso : String) :
    ∃ o body,
      (save_results r none nowStamp nowIso).1 =
        [((save_results r none nowStamp nowIso).2.1, FileContent.jsonDoc o),
         ((save_results r none nowStamp nowIso).2.2, FileContent.textDoc body)] ∧
      o.result = r ∧ o.timestamp = nowIso ∧
      (∃ p q, body = p ++ nowIso ++ q) ∧ (∃ p, body = p ++ r) := by
  refine ⟨{ timestamp := nowIso, research_type := "Cabo Tourism Market Analysis",
            result := r, crew_size := caboCrewAgentCount,
            tasks_completed := caboCrewTaskCount },
    "Cabo Tourism Market Research Report\n" ++ ("Generated: " ++ nowIso ++ "\n") ++
      (eqBanner ++ "\n\n") ++ r,
    rfl, rfl, rfl, ?_, ⟨_, rfl⟩⟩
  refine ⟨"Cabo Tourism Market Research Report\n" ++ "Generated: ",
    "\n" ++ (eqBanner ++ "\n\n") ++ r, ?_⟩
  simp only [String.append_assoc]

theorem txtPat_shorter : txtPat.length < jsonPat.length := by decide

theorem pyReplace_ne_of_occurs (f : List Char)
    (h : containsPat jsonPat f = true) : pyReplace jsonPat txtPat f ≠ f := by
  have hlt := pyReplace_length_lt jsonPat txtPat txtPat_shorter f h
  intro heq
  rw [heq] at hlt
  omega

/-- C8: for an explicitly supplied filename without the substring dot
json, the replacement is the identity, so the returned pair holds two
equal paths and both writes target the same file (the text write
overwrites the JSON file); when the filename contains dot json, and for
the default (None) timestamped filename, the two returned locations are
distinct. -/
theorem claim8_txt_path_overwrite (r nowStamp nowIso : String) (f : List Char) :
    (¬ (∃ s t, f = s ++ jsonPat ++ t) →
      (save_results r (some f) nowStamp nowIso).2.2 =
        (save_results r (some f) nowStamp nowIso).2.1 ∧
      (save_results r (some f) nowStamp nowIso).1.map Prod.fst = [f, f]) ∧
    ((∃ s t, f = s ++ jsonPat ++ t) →
      (save_results r (some f) nowStamp nowIso).2.2 ≠
        (save_results r (some f) nowStamp nowIso).2.1) ∧
    (save_results r none nowStamp nowIso).2.2 ≠
      (save_results r none nowStamp nowIso).2.1 := by
  refine ⟨?_, ?_, ?_⟩
  · intro hno
    have hc : containsPat jsonPat f = false := by
      cases hb : containsPat jsonPat f with
      | false => rfl
      | true => exact absurd ((containsPat_iff jsonPat f).mp hb) hno
    have hid := pyReplace_of_not_occurs jsonPat txtPat f hc
    constructor
    · simp only [save_results]
      exact hid
    · simp only [save_results, List.map_cons, List.map_nil]
      rw [hid]
  · intro hyes
    have hc : containsPat jsonPat f = true := (containsPat_iff jsonPat f).mpr hyes
    simp only [save_results]
    exact pyReplace_ne_of_occurs f hc
  · have hc : containsPat jsonPat
        ("cabo_market_research_".data ++ nowStamp.data ++ ".json".data) = true := by
      have := containsPat_at_end jsonPat ("cabo_market_research_".data ++ nowStamp.data)
      simpa [jsonPat, List.append_assoc] using this
    simp only [save_results]
    exact pyReplace_ne_of_occurs _ hc

/-- Witness for C8: a filename without dot json maps to itself (the two
returned locations coincide), while one containing dot json maps to a
distinct text location. -/
theorem claim8_txt_path_overwrite_witness :
    (save_results "report" (some "results_final".data) "20250101" "T0").2.2 =
      (save_results "report" (some "results_final".data) "20250101" "T0").2.1 ∧
    (save_results "report" (some "cabo.json".data) "20250101" "T0").2.2 ≠
      (save_results "report" (some "cabo.json".data) "20250101" "T0").2.1 :=
  ⟨((claim8_txt_path_overwrite "report" "20250101" "T0" "results_final".data).1
      (fun hex => absurd ((containsPat_iff jsonPat "results_final".data).mpr hex)
        (by decide))).1,
   (claim8_txt_path_overwrite "report" "20250101" "T0" "cabo.json".data).2.1
      ⟨"cabo".data, [], by decide⟩⟩

/-! ## Embedded source code: the custom tools
(cabo_market_research_crew_improved.py, lines 60-160) -/

/-- The external search tool (SerperDevTool.run): a query either returns
result text or raises an exception with a message. -/
abbrev SearchTool := String → Except String String

/-- The four derived queries of analyze_cabo_tourism_data. -/
def tourism_queries (query : String) : List String :=
  [query ++ " Cabo San Lucas tourism statistics 2024 2025",
   query ++ " Los Cabos visitor demographics luxury travel",
   query ++ " Cabo adventure tourism wellness retreats",
   query ++ " Los Cabos hotel occupancy rates trends"]

/-- The loop body of analyze_cabo_tourism_data: each search is attempted
under try/except, a failure contributing an error-message entry. -/
def tourismEntries (search : SearchTool) : List String → List String
  | [] => []
  | sq :: rest =>
    (match search sq with
     | .ok r => r
     | .error e => "Error searching for " ++ sq ++ ": " ++ e) :: tourismEntries search rest

/-- Embedding of analyze_cabo_tourism_data: runs the four derived
searches with per-query exception handling and joins the entries. -/
def analyze_cabo_tourism_data (search : SearchTool) (query : String) : String :=
  String.intercalate "\n\n" (tourismEntries search (tourism_queries query))

/-- The shared loop of the other four tools: runs each query through the
search tool with no exception handling (the first raised exception
propagates) and formats each result with fmt. -/
def runQueries (search : SearchTool) (fmt : String → String → String) :
    List String → Except String (List String)
  | [] => .ok []
  | q :: qs =>
    match search q with
    | .error e => .error e
    | .ok r =>
      match runQueries search fmt qs with
      | .error e => .error e
      | .ok rest => .ok (fmt q r :: rest)

/-- The four derived queries of analyze_competitors. -/
def competitor_queries (business_type : String) : List String :=
  [business_type ++ " Cabo San Lucas top rated TripAdvisor",
   business_type ++ " Los Cabos pricing strategies 2024",
   business_type ++ " Cabo digital tools technology adoption",
   business_type ++ " Los Cabos customer complaints reviews"]

/-- Embedding of analyze_competitors: no exception handling around the
searches. -/
def analyze_competitors (search : SearchTool) (business_type : String) :
    Except String String :=
  match runQueries search (fun q r => "Query: " ++ q ++ "\nResults: " ++ r)
      (competitor_queries business_type) with
  | .error e => .error e
  | .ok data => .ok (String.intercalate "\n\n" data)

/-- The four derived sources of analyze_customer_sentiment. -/
def sentiment_sources (business_category : String) : List String :=
  ["TripAdvisor reviews " ++ business_category ++ " Cabo San Lucas 2024 complaints",
   "Google reviews " ++ business_category ++ " Los Cabos what customers want",
   "Reddit r/cabo " ++ business_category ++ " recommendations problems",
   "Facebook groups Cabo tourism " ++ business_category ++ " discussions"]

/-- Embedding of analyze_customer_sentiment: no exception handling. -/
def analyze_customer_sentiment (search : SearchTool) (business_category : String) :
    Except String String :=
  match runQueries search (fun q r => "Source: " ++ q ++ "\nFindings: " ++ r)
      (sentiment_sources business_category) with
  | .error e => .error e
  | .ok data => .ok (String.intercalate "\n\n" data)

/-- The four derived queries of predict_market_trends. -/
def trend_queries (industry_segment : String) : List String :=
  [industry_segment ++ " tourism trends 2025 predictions Mexico",
   industry_segment ++ " technology adoption hospitality industry",
   industry_segment ++ " post-pandemic travel preferences luxury",
   industry_segment ++ " sustainability eco-tourism Los Cabos"]

/-- Embedding of predict_market_trends: no exception handling. -/
def predict_market_trends (search : SearchTool) (industry_segment : String) :
    Except String String :=
  match runQueries search (fun q r => "Trend area: " ++ q ++ "\nPredictions: " ++ r)
      (trend_queries industry_segment) with
  | .error e => .error e
  | .ok data => .ok (String.intercalate "\n\n" data)

/-- The four derived factors of calculate_roi_potential. -/
def roi_factors (product_type target_market : String) : List String :=
  [product_type ++ " pricing models " ++ target_market ++ " tourism",
   product_type ++ " implementation costs hospitality industry",
   product_type ++ " adoption rates hotels resorts statistics",
   target_market ++ " technology budget spending tourism"]

/-- Embedding of calculate_roi_potential: no exception handling. -/
def calculate_roi_potential (search : SearchTool) (product_type target_market : String) :
    Except String String :=
  match runQueries search (fun q r => "ROI Factor: " ++ q ++ "\nData: " ++ r)
      (roi_factors product_type target_market) with
  | .error e => .error e
  | .ok data => .ok (String.intercalate "\n\n" data)

/-! ### Tool lemmas -/

theorem tourismEntries_length (search : SearchTool) :
    ∀ qs : List String, (tourismEntries search qs).length = qs.length := by
  intro qs
  induction qs with
  | nil => rfl
  | cons q rest ih => simp [tourismEntries, ih]

theorem tourismEntries_get_error (search : SearchTool) :
    ∀ (qs : List String) (i : Nat) (e : String) (hq : i < qs.length)
      (hi : i < (tourismEntries search qs).length),
      search (qs.get ⟨i, hq⟩) = .error e →
      (tourismEntries search qs).get ⟨i, hi⟩ =
        "Error searching for " ++ qs.get ⟨i, hq⟩ ++ ": " ++ e := by
  intro qs
  induction qs with
  | nil => intro i e hq _ _; exact absurd hq (by simp)
  | cons q rest ih =>
    intro i e hq hi h
    cases i with
    | zero =>
      have h' : search q = Except.error e := h
      show (match search q with
        | Except.ok r => r
        | Except.error err => "Error searching for " ++ q ++ ": " ++ err) =
          "Error searching for " ++ q ++ ": " ++ e
      rw [h']
    | succ i =>
      exact ih i e (by simpa using hq) (by simpa [tourismEntries_length] using hq) h

theorem runQueries_congr (s₁ s₂ : SearchTool) (fmt : String → String → String) :
    ∀ qs : List String, (∀ q ∈ qs, s₁ q = s₂ q) →
      runQueries s₁ fmt qs = runQueries s₂ fmt qs := by
  intro qs
  induction qs with
  | nil => intro _; rfl
  | cons q rest ih =>
    intro h
    simp only [runQueries, h q (by simp), ih (fun u hu => h u (by simp [hu]))]

/-! ## Claim theorems for the embedded tools -/

/-- C9: analyze_cabo_tourism_data always returns the double-newline join
of exactly four entries, one per derived query in declaration order, a
failing search contributing an error-message entry instead of
propagating (the return type is a plain string, never an exception) -
unlike analyze_competitors, analyze_customer_sentiment,
predict_market_trends and calculate_roi_potential, through which a search
exception propagates unhandled. -/
theorem claim9_tourism_tool_catches_errors (search : SearchTool)
    (query bt cat seg pt tm e : String) :
    (∃ entries : List String,
      analyze_cabo_tourism_data search query = String.intercalate "\n\n" entries ∧
      entries.length = 4 ∧
      ∀ (i : Nat) (hq : i < (tourism_queries query).length) (hi : i < entries.length),
        search ((tourism_queries query).get ⟨i, hq⟩) = .error e →
        entries.get ⟨i, hi⟩ =
          "Error searching for " ++ (tourism_queries query).get ⟨i, hq⟩ ++ ": " ++ e) ∧
    (search (bt ++ " Cabo San Lucas top rated TripAdvisor") = .error e →
      analyze_competitors search bt = .error e) ∧
    (search ("TripAdvisor reviews " ++ cat ++ " Cabo San Lucas 2024 complaints") =
        .error e →
      analyze_customer_sentiment search cat = .error e) ∧
    (search (seg ++ " tourism trends 2025 predictions Mexico") = .error e →
      predict_market_trends search seg = .error e) ∧
    (search (pt ++ " pricing models " ++ tm ++ " tourism") = .error e →
      calculate_roi_potential search pt tm = .error e) := by
  refine ⟨⟨tourismEntries search (tourism_queries query), rfl, ?_,
    fun i hq hi h => tourismEntries_get_error search _ i e hq hi h⟩, ?_, ?_, ?_, ?_⟩
  · simp [tourismEntries_length, tourism_queries]
  · intro h
    simp [analyze_competitors, competitor_queries, runQueries, h]
  · intro h
    simp [analyze_customer_sentiment, sentiment_sources, runQueries, h]
  · intro h
    simp [predict_market_trends, trend_queries, runQueries, h]
  · intro h
    simp [calculate_roi_potential, roi_factors, runQueries, h]

/-- Witness for C9: a search tool that always raises makes each of the
four unguarded tools propagate the exception. -/
theorem claim9_tourism_tool_catches_errors_witness :
    analyze_competitors (fun _ => Except.error "down") "hotel" = Except.error "down" ∧
    analyze_customer_sentiment (fun _ => Except.error "down") "spa" =
      Except.error "down" ∧
    predict_market_trends (fun _ => Except.error "down") "wellness" =
      Except.error "down" ∧
    calculate_roi_potential (fun _ => Except.error "down") "chatbot" "resorts" =
      Except.error "down" :=
  ⟨(claim9_tourism_tool_catches_errors (fun _ => Except.error "down")
      "q" "hotel" "spa" "wellness" "chatbot" "resorts" "down").2.1 rfl,
   (claim9_tourism_tool_catches_errors (fun _ => Except.error "down")
      "q" "hotel" "spa" "wellness" "chatbot" "resorts" "down").2.2.1 rfl,
   (claim9_tourism_tool_catches_errors (fun _ => Except.error "down")
      "q" "hotel" "spa" "wellness" "chatbot" "resorts" "down").2.2.2.1 rfl,
   (claim9_tourism_tool_catches_errors (fun _ => Except.error "down")
      "q" "hotel" "spa" "wellness" "chatbot" "resorts" "down").2.2.2.2 rfl⟩

/-- C10: with the search tool modelled as a pure function f from query to
result, analyze_competitors returns exactly the double-newline join of
the strings Query q Results (f q) over its four derived queries in
declaration order, and its output depends only on the search function's
values on those queries, so two runs with the same input and the same
search function yield identical output. -/
theorem claim10_competitors_pure_composition (f : String → String)
    (s₁ s₂ : SearchTool) (bt : String) :
    analyze_competitors (fun q => .ok (f q)) bt =
      .ok (String.intercalate "\n\n" ((competitor_queries bt).map
        (fun q => "Query: " ++ q ++ "\nResults: " ++ f q))) ∧
    (competitor_queries bt).length = 4 ∧
    ((∀ q ∈ competitor_queries bt, s₁ q = s₂ q) →
      analyze_competitors s₁ bt = analyze_competitors s₂ bt) := by
  refine ⟨rfl, rfl, ?_⟩
  intro h
  simp only [analyze_competitors, runQueries_congr s₁ s₂ _ _ h]

/-- Witness for C10: two syntactically different search functions that
agree on the derived queries give identical analyze_competitors output. -/
theorem claim10_competitors_pure_composition_witness :
    analyze_competitors (fun q => Except.ok q) "hotel" =
      analyze_competitors (fun q => Except.ok (id q)) "hotel" :=
  (claim10_competitors_pure_composition id (fun q => Except.ok q)
    (fun q => Except.ok (id q)) "hotel").2.2 (fun _ _ => rfl)
